import Mathlib

/-!
Shallow embedding of `src/ApplyPatch.ts` (tokenring-ai/apply-patch): the
patch-text parser (`parsePatch`, `parseOneHunk`, `parseUpdateFileChunk`)
and the pure core of the applier (`applyUpdateChunks` without file I/O:
reading the file is replaced by taking the content string as an argument,
writing by returning the result string), together with the line matcher
`seekSequence`.

Strings are modelled by Lean `String`; JavaScript `String#trim` is modelled
by `jsTrim` (both strip leading/trailing whitespace; they differ only
on exotic Unicode whitespace characters, which no statement here depends
on).  `Array#join("\n")` is `joinLines`.  JavaScript exceptions thrown via
`createError(message, status)` are modelled by an explicit result
constructor carrying the message and status.

Loops in the source that provably repeat an identical machine state forever
(the chunk-collection loop when the chunk parser consumes zero lines: the
index and the immutable line array are unchanged, so the iteration repeats
exactly) are modelled by the dedicated result value `PRes.diverges`.  All
recursions below are structural; fuel arguments are upper bounds on the
iteration count of the corresponding source loop and are provably
sufficient (each iteration consumes at least one line or is mapped to
`diverges`).
-/

namespace ApplyPatch

/-- Result of a source computation: normal value, thrown `createError`
(message and HTTP-ish status), or provable non-termination of a source
loop. -/
inductive PRes (α : Type) where
  | ok (val : α)
  | err (msg : String) (status : Nat)
  | diverges
deriving DecidableEq

def PRes.map {α β : Type} (f : α → β) : PRes α → PRes β
  | .ok v => .ok (f v)
  | .err m s => .err m s
  | .diverges => .diverges

/-- `UpdateFileChunk` from the source. `changeContext = none` models the
JavaScript `undefined`. -/
structure UpdateFileChunk where
  changeContext : Option String
  oldLines : List String
  newLines : List String
  isEndOfFile : Bool
deriving DecidableEq

/-- The `Hunk` tagged union from the source. -/
inductive Hunk where
  | add (path : String) (contents : String)
  | delete (path : String)
  | update (path : String) (movePath : Option String) (chunks : List UpdateFileChunk)
deriving DecidableEq

/-! ## Kernel-computable string primitives

JavaScript's `trim`, `split('\n')`, `startsWith` and `substring` operate on
code units; we model them by structurally recursive functions on the
character list of a `String` (identical on the ASCII/BMP inputs in play,
and evaluable by the kernel, unlike the byte-position-based library
versions). -/

/-- Strip leading and trailing whitespace from a character list. -/
def trimChars (cs : List Char) : List Char :=
  ((cs.dropWhile Char.isWhitespace).reverse.dropWhile Char.isWhitespace).reverse

/-- JavaScript `String#trim`. -/
def jsTrim (s : String) : String := ⟨trimChars s.data⟩

/-- Split a character list at every occurrence of `sep`; always returns a
non-empty list of fragments. -/
def splitCharsOn (sep : Char) : List Char → List (List Char)
  | [] => [[]]
  | c :: rest =>
    match splitCharsOn sep rest with
    | [] => if c = sep then [[], []] else [[c]]
    | h :: t => if c = sep then [] :: h :: t else (c :: h) :: t

/-- JavaScript `content.split('\n')`. -/
def jsSplitNewline (s : String) : List String :=
  (splitCharsOn '\n' s.data).map fun cs => ⟨cs⟩

/-- JavaScript `s.startsWith(p)`. -/
def jsStartsWith (s p : String) : Bool := p.data.isPrefixOf s.data

/-- JavaScript `s.substring(n)`. -/
def jsDrop (s : String) (n : Nat) : String := ⟨s.data.drop n⟩

def BEGIN_PATCH_MARKER : String := "*** Begin Patch"
def END_PATCH_MARKER : String := "*** End Patch"
def ADD_FILE_MARKER : String := "*** Add File: "
def DELETE_FILE_MARKER : String := "*** Delete File: "
def UPDATE_FILE_MARKER : String := "*** Update File: "
def MOVE_TO_MARKER : String := "*** Move to: "
def EOF_MARKER : String := "*** End of File"
def CHANGE_CONTEXT_MARKER : String := "@@ "
def EMPTY_CHANGE_CONTEXT_MARKER : String := "@@"

/-! ## Line matcher (`seekSequence`) -/

/-- The exact inner loop of `seekSequence` at candidate position `i`:
every pattern line equals the haystack line at `i + j`. -/
def exactAt (lines pattern : List String) (i : Nat) : Bool :=
  pattern.isPrefixOf (lines.drop i)

/-- The trimmed inner loop of `seekSequence` at candidate position `i`:
every pattern line, trimmed, equals the corresponding haystack line,
trimmed. -/
def trimAt (lines pattern : List String) (i : Nat) : Bool :=
  (pattern.map jsTrim).isPrefixOf ((lines.drop i).map jsTrim)

/-- The scan loop of `seekSequence`: candidate positions `i` increasing,
exact match tried before trimmed match at each position.  The fuel is an
upper bound on the number of iterations; `seekSequence` passes
`lines.length + 1`, which is sufficient because each iteration increments
`i` and the loop condition fails once `i + pattern.length > lines.length`. -/
def seekLoop (lines pattern : List String) : Nat → Nat → Option Nat
  | 0, _ => none
  | fuel + 1, i =>
    if i + pattern.length ≤ lines.length then
      if exactAt lines pattern i then some i
      else if trimAt lines pattern i then some i
      else seekLoop lines pattern fuel (i + 1)
    else none

/-- `seekSequence(lines, pattern, start)` from the source. -/
def seekSequence (lines pattern : List String) (start : Nat) : Option Nat :=
  if pattern.length = 0 then some start
  else if lines.length < pattern.length then none
  else seekLoop lines pattern (lines.length + 1) start

/-! ## Parser -/

/-- The `+`-line collection loop of the Add-File branch of `parseOneHunk`:
returns the accumulated contents and the number of lines consumed. -/
def parseAddLines : List String → String × Nat
  | [] => ("", 0)
  | l :: ls =>
    if jsStartsWith l "+" then
      let p := parseAddLines ls
      ((jsDrop l 1 ++ "\n") ++ p.1, p.2 + 1)
    else ("", 0)

/-- Accumulated result of the chunk-body loop of `parseUpdateFileChunk`. -/
structure BodyRes where
  oldL : List String
  newL : List String
  eof : Bool
  consumed : Nat
deriving DecidableEq

/-- The body loop of `parseUpdateFileChunk`: classifies each line by its
first character, with the `hasContent` flag as its only state. -/
def chunkBody : List String → Bool → PRes BodyRes
  | [], _ => .ok ⟨[], [], false, 0⟩
  | l :: ls, hasContent =>
    if l = EOF_MARKER then .ok ⟨[], [], true, 1⟩
    else if jsStartsWith l "***" || jsStartsWith l "@@" then .ok ⟨[], [], false, 0⟩
    else if jsStartsWith l " " then
      (chunkBody ls true).map fun r => ⟨jsDrop l 1 :: r.oldL, jsDrop l 1 :: r.newL, r.eof, r.consumed + 1⟩
    else if jsStartsWith l "-" then
      (chunkBody ls true).map fun r => ⟨jsDrop l 1 :: r.oldL, r.newL, r.eof, r.consumed + 1⟩
    else if jsStartsWith l "+" then
      (chunkBody ls true).map fun r => ⟨r.oldL, jsDrop l 1 :: r.newL, r.eof, r.consumed + 1⟩
    else if jsTrim l = "" then
      (chunkBody ls true).map fun r => ⟨"" :: r.oldL, "" :: r.newL, r.eof, r.consumed + 1⟩
    else if hasContent then .ok ⟨[], [], false, 0⟩
    else .err ("Unexpected line in update hunk: '" ++ l ++ "'") 400

/-- `parseUpdateFileChunk(lines, startIndex)` on the suffix
`lines.drop startIndex` (the source only reads indices `≥ startIndex`):
returns the chunk and the number of lines consumed. -/
def parseUpdateFileChunk (rest : List String) : PRes (UpdateFileChunk × Nat) :=
  match rest with
  | [] => (chunkBody [] false).map fun r => (⟨none, r.oldL, r.newL, r.eof⟩, r.consumed)
  | l :: ls =>
    if l = EMPTY_CHANGE_CONTEXT_MARKER then
      (chunkBody ls false).map fun r => (⟨none, r.oldL, r.newL, r.eof⟩, r.consumed + 1)
    else if jsStartsWith l CHANGE_CONTEXT_MARKER then
      (chunkBody ls false).map fun r =>
        (⟨some (jsDrop l CHANGE_CONTEXT_MARKER.length), r.oldL, r.newL, r.eof⟩, r.consumed + 1)
    else
      (chunkBody (l :: ls) false).map fun r => (⟨none, r.oldL, r.newL, r.eof⟩, r.consumed)

/-- The chunk-collection loop of the Update-File branch of `parseOneHunk`.
When the chunk parser consumes zero lines the source loop repeats an
identical state forever; this is modelled by `.diverges`.  Each other
iteration consumes at least one line, so fuel `rest.length + 1` (used by
`parseOneHunk`) is sufficient and the fuel-exhaustion branch is
unreachable from `parseOneHunk`. -/
def collectChunks : Nat → List String → PRes (List UpdateFileChunk × Nat)
  | 0, _ => .diverges
  | fuel + 1, rest =>
    match rest with
    | [] => .ok ([], 0)
    | l :: ls =>
      if jsStartsWith l "***" then .ok ([], 0)
      else if jsTrim l = "" then
        (collectChunks fuel ls).map fun p => (p.1, p.2 + 1)
      else
        match parseUpdateFileChunk (l :: ls) with
        | .err m s => .err m s
        | .diverges => .diverges
        | .ok (chunk, consumed) =>
          if consumed = 0 then .diverges
          else
            (collectChunks fuel ((l :: ls).drop consumed)).map fun p =>
              (chunk :: p.1, consumed + p.2)

/-- `parseOneHunk(lines, startIndex)` on the suffix `lines.drop startIndex`
(the source only reads indices `≥ startIndex`); callers guarantee the
suffix is non-empty. -/
def parseOneHunk (rest : List String) : PRes (Hunk × Nat) :=
  match rest with
  | [] => .err "Invalid hunk header: ''" 400
  | l :: ls =>
    let line := jsTrim l
    if jsStartsWith line ADD_FILE_MARKER then
      let p := parseAddLines ls
      .ok (.add (jsDrop line ADD_FILE_MARKER.length) p.1, p.2 + 1)
    else if jsStartsWith line DELETE_FILE_MARKER then
      .ok (.delete (jsDrop line DELETE_FILE_MARKER.length), 1)
    else if jsStartsWith line UPDATE_FILE_MARKER then
      let path := jsDrop line UPDATE_FILE_MARKER.length
      let mv : Option String × List String × Nat :=
        match ls with
        | l2 :: ls2 =>
          if jsStartsWith l2 MOVE_TO_MARKER then
            (some (jsDrop l2 MOVE_TO_MARKER.length), ls2, 2)
          else (none, l2 :: ls2, 1)
        | [] => (none, [], 1)
      match collectChunks (mv.2.1.length + 1) mv.2.1 with
      | .err m s => .err m s
      | .diverges => .diverges
      | .ok (chunks, consumed) =>
        if chunks.isEmpty then
          .err ("Update file hunk for path '" ++ path ++ "' is empty") 400
        else .ok (.update path mv.1 chunks, mv.2.2 + consumed)
    else .err ("Invalid hunk header: '" ++ line ++ "'") 400

/-- The top-level hunk loop of `parsePatch`: iterates `parseOneHunk` from
index 1 while `i < lines.length - 1`.  Every hunk consumes at least one
line (its header), so fuel `lines.length + 1` is sufficient. -/
def hunkLoop (lines : List String) : Nat → Nat → PRes (List Hunk)
  | 0, _ => .diverges
  | fuel + 1, i =>
    if i < lines.length - 1 then
      match parseOneHunk (lines.drop i) with
      | .err m s => .err m s
      | .diverges => .diverges
      | .ok (h, consumed) =>
        if consumed = 0 then .diverges
        else (hunkLoop lines fuel (i + consumed)).map fun hs => h :: hs
    else .ok []

/-- The body of `parsePatch` after the trim-and-split of its input. -/
def parsePatchLines (lines : List String) : PRes (List Hunk) :=
  if lines.length < 2 then
    .err "Patch must have at least begin and end markers" 400
  else if lines.getD 0 "" ≠ BEGIN_PATCH_MARKER then
    .err "The first line of the patch must be '*** Begin Patch'" 400
  else if lines.getD (lines.length - 1) "" ≠ END_PATCH_MARKER then
    .err "The last line of the patch must be '*** End Patch'" 400
  else hunkLoop lines (lines.length + 1) 1

/-- `parsePatch(patch)` from the source. -/
def parsePatch (patch : String) : PRes (List Hunk) :=
  parsePatchLines (jsSplitNewline (jsTrim patch))

/-! ## Applier (pure core of `applyUpdateChunks`) -/

/-- `Array#join("\n")` (equally, `String.intercalate "\n"`). -/
def joinLines : List String → String
  | [] => ""
  | [l] => l
  | l :: l2 :: ls => l ++ "\n" ++ joinLines (l2 :: ls)

/-- The start of `applyUpdateChunks`: split the content on newlines and
drop one trailing empty element produced by a final newline, if present. -/
def initialLines (content : String) : List String :=
  let ls := jsSplitNewline content
  if ls.getLast? = some "" then ls.dropLast else ls

/-- A queued `{ start, length, newLines }` replacement. -/
structure Replacement where
  start : Nat
  length : Nat
  newLines : List String
deriving DecidableEq

/-- The context-hint step of the chunk loop: `if (chunk.changeContext)` is
JavaScript truthiness, so an absent hint and the empty-string hint both
skip the search; a found hint advances the cursor to one past the match; a
miss leaves the cursor unchanged. -/
def cursorAfterHint (lines : List String) (searchStart : Nat) : Option String → Nat
  | none => searchStart
  | some c =>
    if c = "" then searchStart
    else
      match seekSequence lines [c] searchStart with
      | some ci => ci + 1
      | none => searchStart

/-- The pattern normalization of the chunk loop: drop a trailing empty
pattern line when the chunk is not flagged end-of-file. -/
def normPattern (chunk : UpdateFileChunk) : List String :=
  if chunk.oldLines.getLast? = some "" ∧ chunk.isEndOfFile = false then
    chunk.oldLines.dropLast
  else chunk.oldLines

/-- The replacement-lines normalization paired with `normPattern`: inside
the same branch, also drop a trailing empty replacement line. -/
def normNewLines (chunk : UpdateFileChunk) : List String :=
  if chunk.oldLines.getLast? = some "" ∧ chunk.isEndOfFile = false ∧
      chunk.newLines.getLast? = some "" then
    chunk.newLines.dropLast
  else chunk.newLines

/-- One iteration of the chunk loop of `applyUpdateChunks`: state is the
search cursor and the queued replacements (in queue order). -/
def chunkStep (lines : List String) (st : Nat × List Replacement)
    (chunk : UpdateFileChunk) : PRes (Nat × List Replacement) :=
  let s := cursorAfterHint lines st.1 chunk.changeContext
  if chunk.oldLines = [] then
    .ok (s, st.2 ++ [⟨lines.length, 0, chunk.newLines⟩])
  else
    match seekSequence lines (normPattern chunk) s with
    | none =>
      .err ("Failed to find expected lines:\n" ++ joinLines (normPattern chunk)) 400
    | some m =>
      .ok (m + (normPattern chunk).length,
           st.2 ++ [⟨m, (normPattern chunk).length, normNewLines chunk⟩])

/-- The chunk loop of `applyUpdateChunks`, folded over all chunks. -/
def chunksLoop (lines : List String) (st : Nat × List Replacement) :
    List UpdateFileChunk → PRes (Nat × List Replacement)
  | [] => .ok st
  | c :: cs =>
    match chunkStep lines st c with
    | .ok st' => chunksLoop lines st' cs
    | .err m s => .err m s
    | .diverges => .diverges

/-- The replacement queue computed by `applyUpdateChunks` for a chunk list
(the `replacements` array right before sorting). -/
def computeReplacements (lines : List String) (chunks : List UpdateFileChunk) :
    PRes (List Replacement) :=
  (chunksLoop lines (0, []) chunks).map (·.2)

/-- `lines.splice(start, length, ...newLines)` on a line buffer. -/
def splice (buf : List String) (r : Replacement) : List String :=
  buf.take r.start ++ r.newLines ++ buf.drop (r.start + r.length)

/-- Stable insertion keeping starts in descending order: an element is
placed before the first element whose start is not larger. -/
def insertDesc (r : Replacement) : List Replacement → List Replacement
  | [] => [r]
  | s :: rest => if s.start ≤ r.start then r :: s :: rest else s :: insertDesc r rest

/-- `replacements.sort((a, b) => b.start - a.start)`: JavaScript
`Array#sort` is stable, and a stable sort by a fixed key is extensionally
unique, so stable insertion sort by descending start is the same
function. -/
def sortReps : List Replacement → List Replacement
  | [] => []
  | r :: rest => insertDesc r (sortReps rest)

/-- Apply all queued replacements: sort by descending start, then splice
each in turn. -/
def applyReplacements (lines : List String) (reps : List Replacement) : List String :=
  (sortReps reps).foldl splice lines

/-- The trailing-newline step: append one empty element when the buffer is
non-empty and does not already end with an empty element. -/
def ensureTrailingNewline (buf : List String) : List String :=
  if buf ≠ [] ∧ buf.getLast? ≠ some "" then buf ++ [""] else buf

/-- The pure core of `applyUpdateChunks`: from the current file content and
the chunk list to the serialized new content (or the thrown error). -/
def applyUpdateChunksPure (content : String) (chunks : List UpdateFileChunk) :
    PRes String :=
  let lines := initialLines content
  match computeReplacements lines chunks with
  | .ok reps => .ok (joinLines (ensureTrailingNewline (applyReplacements lines reps)))
  | .err m s => .err m s
  | .diverges => .diverges

/-! ## Specification predicates for the line matcher -/

/-- The claim's match notion at position `i`: every pattern line equals the
corresponding haystack line exactly. -/
def exactMatchAt (lines pattern : List String) (i : Nat) : Prop :=
  (lines.drop i).take pattern.length = pattern

/-- The claim's fuzzy match notion at position `i`: every pattern line
equals the corresponding haystack line after trimming leading/trailing
whitespace from both sides. -/
def trimMatchAt (lines pattern : List String) (i : Nat) : Prop :=
  ((lines.drop i).take pattern.length).map jsTrim = pattern.map jsTrim

/-- Either of the two match notions holds at position `i`. -/
def specMatchAt (lines pattern : List String) (i : Nat) : Prop :=
  exactMatchAt lines pattern i ∨ trimMatchAt lines pattern i

instance (lines pattern : List String) (i : Nat) :
    Decidable (exactMatchAt lines pattern i) := by
  unfold exactMatchAt; infer_instance

instance (lines pattern : List String) (i : Nat) :
    Decidable (trimMatchAt lines pattern i) := by
  unfold trimMatchAt; infer_instance

instance (lines pattern : List String) (i : Nat) :
    Decidable (specMatchAt lines pattern i) := by
  unfold specMatchAt; infer_instance

/-! ## Helper lemmas about the line matcher -/

theorem exactAt_iff (lines pattern : List String) (i : Nat) :
    exactAt lines pattern i = true ↔ exactMatchAt lines pattern i := by
  unfold exactAt exactMatchAt
  rw [List.isPrefixOf_iff_prefix, List.prefix_iff_eq_take]
  exact ⟨fun h => h.symm, fun h => h.symm⟩

theorem trimAt_iff (lines pattern : List String) (i : Nat) :
    trimAt lines pattern i = true ↔ trimMatchAt lines pattern i := by
  unfold trimAt trimMatchAt
  rw [List.isPrefixOf_iff_prefix, List.prefix_iff_eq_take, List.length_map,
    ← List.map_take]
  exact ⟨fun h => h.symm, fun h => h.symm⟩

theorem specMatchAt_out_of_range (lines pattern : List String) (k : Nat)
    (hp : pattern ≠ []) (h : lines.length < k + pattern.length) :
    ¬ specMatchAt lines pattern k := by
  have hp' : 0 < pattern.length := List.length_pos.mpr hp
  have hlen : ((lines.drop k).take pattern.length).length < pattern.length := by
    rw [List.length_take, List.length_drop]
    omega
  rintro (he | ht)
  · have := congrArg List.length he
    omega
  · have := congrArg List.length ht
    rw [List.length_map, List.length_map] at this
    omega

theorem seekLoop_some (lines pattern : List String) :
    ∀ fuel i k, seekLoop lines pattern fuel i = some k →
      i ≤ k ∧ k + pattern.length ≤ lines.length ∧ specMatchAt lines pattern k ∧
      ∀ m, i ≤ m → m < k → ¬ specMatchAt lines pattern m := by
  intro fuel
  induction fuel with
  | zero => intro i k h; simp [seekLoop] at h
  | succ fuel ih =>
    intro i k h
    rw [seekLoop] at h
    by_cases hb : i + pattern.length ≤ lines.length
    · rw [if_pos hb] at h
      by_cases he : exactAt lines pattern i = true
      · rw [if_pos he] at h
        injection h with h; subst h
        exact ⟨Nat.le_refl _, hb, Or.inl ((exactAt_iff ..).mp he),
          fun m h1 h2 => absurd (Nat.lt_of_le_of_lt h1 h2) (Nat.lt_irrefl _)⟩
      · rw [if_neg he] at h
        by_cases ht : trimAt lines pattern i = true
        · rw [if_pos ht] at h
          injection h with h; subst h
          exact ⟨Nat.le_refl _, hb, Or.inr ((trimAt_iff ..).mp ht),
            fun m h1 h2 => absurd (Nat.lt_of_le_of_lt h1 h2) (Nat.lt_irrefl _)⟩
        · rw [if_neg ht] at h
          obtain ⟨h1, h2, h3, h4⟩ := ih (i + 1) k h
          refine ⟨by omega, h2, h3, ?_⟩
          intro m hm1 hm2
          rcases Nat.eq_or_lt_of_le hm1 with hm | hm
          · subst hm
            rintro (hx | hx)
            · exact he ((exactAt_iff ..).mpr hx)
            · exact ht ((trimAt_iff ..).mpr hx)
          · exact h4 m hm hm2
    · rw [if_neg hb] at h; cases h

theorem seekLoop_none (lines pattern : List String) (hp : pattern ≠ []) :
    ∀ fuel i, lines.length + 1 ≤ fuel + i → seekLoop lines pattern fuel i = none →
      ∀ k, i ≤ k → ¬ specMatchAt lines pattern k := by
  intro fuel
  induction fuel with
  | zero =>
    intro i hfi _ k hk
    have hp' : 0 < pattern.length := List.length_pos.mpr hp
    exact specMatchAt_out_of_range lines pattern k hp (by omega)
  | succ fuel ih =>
    intro i hfi h k hk
    rw [seekLoop] at h
    by_cases hb : i + pattern.length ≤ lines.length
    · rw [if_pos hb] at h
      by_cases he : exactAt lines pattern i = true
      · rw [if_pos he] at h; cases h
      · rw [if_neg he] at h
        by_cases ht : trimAt lines pattern i = true
        · rw [if_pos ht] at h; cases h
        · rw [if_neg ht] at h
          rcases Nat.eq_or_lt_of_le hk with hm | hm
          · subst hm
            rintro (hx | hx)
            · exact he ((exactAt_iff ..).mpr hx)
            · exact ht ((trimAt_iff ..).mpr hx)
          · exact ih (i + 1) (by omega) h k hm
    · rw [if_neg hb] at h
      exact specMatchAt_out_of_range lines pattern k hp (by omega)

theorem seek_nil (lines pattern : List String) (start : Nat) (hp : pattern = []) :
    seekSequence lines pattern start = some start := by
  subst hp; simp [seekSequence]

theorem seek_ge (lines pattern : List String) (start k : Nat)
    (h : seekSequence lines pattern start = some k) : start ≤ k := by
  unfold seekSequence at h
  by_cases hp : pattern.length = 0
  · rw [if_pos hp] at h; injection h with h; omega
  · rw [if_neg hp] at h
    by_cases hl : lines.length < pattern.length
    · rw [if_pos hl] at h; cases h
    · rw [if_neg hl] at h
      exact (seekLoop_some lines pattern _ start k h).1

theorem seek_bound (lines pattern : List String) (start k : Nat)
    (hp : pattern ≠ []) (h : seekSequence lines pattern start = some k) :
    k + pattern.length ≤ lines.length := by
  unfold seekSequence at h
  rw [if_neg (fun hz => hp (List.length_eq_zero.mp hz))] at h
  by_cases hl : lines.length < pattern.length
  · rw [if_pos hl] at h; cases h
  · rw [if_neg hl] at h
    exact (seekLoop_some lines pattern _ start k h).2.1

theorem seek_match (lines pattern : List String) (start k : Nat)
    (hp : pattern ≠ []) (h : seekSequence lines pattern start = some k) :
    specMatchAt lines pattern k := by
  unfold seekSequence at h
  rw [if_neg (fun hz => hp (List.length_eq_zero.mp hz))] at h
  by_cases hl : lines.length < pattern.length
  · rw [if_pos hl] at h; cases h
  · rw [if_neg hl] at h
    exact (seekLoop_some lines pattern _ start k h).2.2.1

theorem seek_least (lines pattern : List String) (start k : Nat)
    (hp : pattern ≠ []) (h : seekSequence lines pattern start = some k) :
    ∀ m, start ≤ m → m < k → ¬ specMatchAt lines pattern m := by
  unfold seekSequence at h
  rw [if_neg (fun hz => hp (List.length_eq_zero.mp hz))] at h
  by_cases hl : lines.length < pattern.length
  · rw [if_pos hl] at h; cases h
  · rw [if_neg hl] at h
    exact (seekLoop_some lines pattern _ start k h).2.2.2

theorem seek_none (lines pattern : List String) (start : Nat)
    (hp : pattern ≠ []) (h : seekSequence lines pattern start = none) :
    ∀ k, start ≤ k → ¬ specMatchAt lines pattern k := by
  unfold seekSequence at h
  rw [if_neg (fun hz => hp (List.length_eq_zero.mp hz))] at h
  by_cases hl : lines.length < pattern.length
  · intro k hk
    have hp' : 0 < pattern.length := List.length_pos.mpr hp
    exact specMatchAt_out_of_range lines pattern k hp (by omega)
  · rw [if_neg hl] at h
    exact seekLoop_none lines pattern hp _ start (by omega) h

/-! ## Claim C1 -/

/-- C1: for every haystack, pattern, and start index, `seekSequence`
returns `fromIndex` when the pattern is empty; returns not-found when the
pattern is longer than the searchable remainder; and otherwise returns the
smallest index `i ≥ fromIndex` at which every pattern line equals the
corresponding haystack line exactly, or equals it after trimming both
sides, with not-found returned when no such index exists. -/
theorem seekSequence_correct (haystack pattern : List String) (fromIndex : Nat) :
    (pattern = [] → seekSequence haystack pattern fromIndex = some fromIndex)
    ∧ (pattern ≠ [] → haystack.length < fromIndex + pattern.length →
        seekSequence haystack pattern fromIndex = none)
    ∧ (pattern ≠ [] →
        (∀ k, seekSequence haystack pattern fromIndex = some k →
          fromIndex ≤ k ∧ specMatchAt haystack pattern k ∧
          ∀ m, fromIndex ≤ m → m < k → ¬ specMatchAt haystack pattern m)
        ∧ (seekSequence haystack pattern fromIndex = none →
          ∀ k, fromIndex ≤ k → ¬ specMatchAt haystack pattern k)) := by
  refine ⟨fun hp => seek_nil haystack pattern fromIndex hp, ?_, ?_⟩
  · intro hp hlong
    rcases h : seekSequence haystack pattern fromIndex with _ | k
    · rfl
    · have h1 := seek_ge haystack pattern fromIndex k h
      have h2 := seek_bound haystack pattern fromIndex k hp h
      omega
  · intro hp
    refine ⟨fun k h => ⟨seek_ge haystack pattern fromIndex k h,
      seek_match haystack pattern fromIndex k hp h,
      seek_least haystack pattern fromIndex k hp h⟩,
      fun h => seek_none haystack pattern fromIndex hp h⟩

/-- Witness for C1 at a concrete input: the pattern `["b"]` is found in
`["a", "b"]` at index 1, which matches and is least. -/
theorem seekSequence_correct_witness :
    seekSequence ["a", "b"] ["b"] 0 = some 1 ∧
    specMatchAt ["a", "b"] ["b"] 1 ∧
    ∀ m, 0 ≤ m → m < 1 → ¬ specMatchAt ["a", "b"] ["b"] m := by
  have h := ((seekSequence_correct ["a", "b"] ["b"] 0).2.2 (by decide)).1 1 (by decide)
  exact ⟨by decide, h.2.1, h.2.2⟩

/-! ## Claims C7, C8, C9, C10 (parser) -/

/-- C7 counterexample: the hunk-dispatch line is trimmed before both the
marker tests and the error message, so for the line `" x"` the error quotes
the trimmed `'x'`, not the offending line verbatim as the claim states. -/
theorem invalid_header_counterexample :
    parsePatch "*** Begin Patch\n x\n*** End Patch" =
      PRes.err "Invalid hunk header: 'x'" 400 ∧
    "Invalid hunk header: 'x'" ≠ "Invalid hunk header: ' x'" := by
  exact ⟨by decide, by decide⟩

/-- C7 amended: for every hunk-position line whose trimmed form does not
begin with the add-file, delete-file, or update-file header marker (checked
in that priority order), the hunk parser fails with
`Invalid hunk header: '<trimmed line>'` quoting the trimmed line. -/
theorem invalid_header_amended (l : String) (ls : List String)
    (h1 : jsStartsWith (jsTrim l) ADD_FILE_MARKER = false)
    (h2 : jsStartsWith (jsTrim l) DELETE_FILE_MARKER = false)
    (h3 : jsStartsWith (jsTrim l) UPDATE_FILE_MARKER = false) :
    parseOneHunk (l :: ls) =
      .err ("Invalid hunk header: '" ++ jsTrim l ++ "'") 400 := by
  simp [parseOneHunk, h1, h2, h3]

/-- Witness for the amended C7 at the concrete line `" x"`. -/
theorem invalid_header_amended_witness :
    parseOneHunk [" x"] = .err ("Invalid hunk header: '" ++ jsTrim " x" ++ "'") 400 :=
  invalid_header_amended " x" [] (by decide) (by decide) (by decide)

/-- C8 counterexample: the line `"\t"` is not wholly blank (it has a
character) and starts with none of space, `-`, `+`, so by the claim it
should fail with `Unexpected line in update hunk` in a chunk with no
accumulated content — but the code's trim-blank branch accepts it and
appends an empty line to both sides. -/
theorem chunk_blank_counterexample :
    parseUpdateFileChunk ["\t"] = .ok (⟨none, [""], [""], false⟩, 1) ∧
    ∀ m s, parseUpdateFileChunk ["\t"] ≠ .err m s := by
  have he : parseUpdateFileChunk ["\t"] = .ok (⟨none, [""], [""], false⟩, 1) := by decide
  exact ⟨he, fun m s h => by rw [he] at h; cases h⟩

/-- C8 amended: in a chunk body, a line that survives the end-of-file,
`***`/`@@`, space, `-`, `+` tests is appended as an empty line to both old
and new lines whenever its trimmed form is empty (this covers wholly blank
lines and whitespace-only lines not starting with a space); otherwise it
fails with `Unexpected line in update hunk: '<line>'` when no content has
accumulated, and terminates the chunk without consuming the line when
content has. -/
theorem chunk_classify_amended (l : String) (ls : List String) (hc : Bool)
    (h1 : l ≠ EOF_MARKER)
    (h2 : jsStartsWith l "***" = false)
    (h3 : jsStartsWith l "@@" = false)
    (h4 : jsStartsWith l " " = false)
    (h5 : jsStartsWith l "-" = false)
    (h6 : jsStartsWith l "+" = false) :
    (jsTrim l = "" →
      chunkBody (l :: ls) hc =
        (chunkBody ls true).map fun r =>
          ⟨"" :: r.oldL, "" :: r.newL, r.eof, r.consumed + 1⟩)
    ∧ (jsTrim l ≠ "" → hc = false →
        chunkBody (l :: ls) hc =
          .err ("Unexpected line in update hunk: '" ++ l ++ "'") 400)
    ∧ (jsTrim l ≠ "" → hc = true → chunkBody (l :: ls) hc = .ok ⟨[], [], false, 0⟩) := by
  refine ⟨?_, ?_, ?_⟩ <;> intros <;>
    simp [chunkBody, h1, h2, h3, h4, h5, h6, *]

/-- Witness for the amended C8 at the concrete lines `"\t"` (trim-blank,
accepted) and `"x"` (non-blank, rejected with no accumulated content). -/
theorem chunk_classify_amended_witness :
    chunkBody ["\t"] false =
      ((chunkBody [] true).map fun r =>
        ⟨"" :: r.oldL, "" :: r.newL, r.eof, r.consumed + 1⟩) ∧
    chunkBody ["x"] false = .err ("Unexpected line in update hunk: '" ++ "x" ++ "'") 400 :=
  ⟨(chunk_classify_amended "\t" [] false (by decide) (by decide) (by decide)
      (by decide) (by decide) (by decide)).1 (by decide),
   (chunk_classify_amended "x" [] false (by decide) (by decide) (by decide)
      (by decide) (by decide) (by decide)).2.1 (by decide) rfl⟩

/-- C9: parse fails with a format error (status 400) whenever the trimmed
input has fewer than two lines, or the first line is not the begin-marker,
or the last line is not the end-marker; and a valid envelope with nothing
between the markers parses to the empty operation list. -/
theorem parsePatch_envelope (s : String) :
    ((jsSplitNewline (jsTrim s)).length < 2 ∨
     (jsSplitNewline (jsTrim s)).getD 0 "" ≠ BEGIN_PATCH_MARKER ∨
     (jsSplitNewline (jsTrim s)).getD ((jsSplitNewline (jsTrim s)).length - 1) ""
       ≠ END_PATCH_MARKER →
      ∃ m, parsePatch s = .err m 400)
    ∧ (jsSplitNewline (jsTrim s) = [BEGIN_PATCH_MARKER, END_PATCH_MARKER] →
        parsePatch s = .ok []) := by
  constructor
  · intro h
    show ∃ m, parsePatchLines (jsSplitNewline (jsTrim s)) = .err m 400
    generalize jsSplitNewline (jsTrim s) = L at h ⊢
    by_cases h1 : L.length < 2
    · refine ⟨"Patch must have at least begin and end markers", ?_⟩
      unfold parsePatchLines
      rw [if_pos h1]
    · by_cases h2 : L.getD 0 "" = BEGIN_PATCH_MARKER
      · by_cases h3 : L.getD (L.length - 1) "" = END_PATCH_MARKER
        · rcases h with h | h | h <;> contradiction
        · refine ⟨"The last line of the patch must be '*** End Patch'", ?_⟩
          unfold parsePatchLines
          rw [if_neg h1, if_neg (not_not_intro h2), if_pos h3]
      · refine ⟨"The first line of the patch must be '*** Begin Patch'", ?_⟩
        unfold parsePatchLines
        rw [if_neg h1, if_pos h2]
  · intro h
    show parsePatchLines (jsSplitNewline (jsTrim s)) = .ok []
    rw [h]; decide

/-- Witness for C9: a one-line input fails with status 400, and the bare
two-marker envelope parses to the empty list. -/
theorem parsePatch_envelope_witness :
    (∃ m, parsePatch "x" = .err m 400) ∧
    parsePatch "*** Begin Patch\n*** End Patch" = .ok [] :=
  ⟨(parsePatch_envelope "x").1 (Or.inl (by decide)),
   (parsePatch_envelope "*** Begin Patch\n*** End Patch").2 (by decide)⟩

/-- C10 (the code is wrong, the claim states the intent): `parsePatch` does
not terminate on every input.  On a chunk line starting with `@@` that is
neither the bare `@@` marker nor `@@ `-prefixed (here `@@x`), the chunk
parser consumes zero lines, so the chunk-collection loop of the update
branch repeats an identical state forever; the embedding returns the
explicit divergence marker for exactly that situation. -/
theorem parsePatch_diverges_on_bad_context :
    parsePatch "*** Begin Patch\n*** Update File: a\n@@x\n*** End Patch" =
      PRes.diverges := by
  decide

/-! ## Helper lemmas about the applier's chunk loop -/

theorem cursorAfterHint_ge (lines : List String) (s : Nat) (ctx : Option String) :
    s ≤ cursorAfterHint lines s ctx := by
  cases ctx with
  | none => exact Nat.le_refl _
  | some c =>
    show s ≤ (if c = "" then s
      else match seekSequence lines [c] s with
        | some ci => ci + 1
        | none => s)
    by_cases hc : c = ""
    · rw [if_pos hc]
    · rw [if_neg hc]
      cases hseek : seekSequence lines [c] s with
      | none => exact Nat.le_refl _
      | some ci =>
        have := seek_ge lines [c] s ci hseek
        show s ≤ ci + 1
        omega

theorem chunkStep_none_eq (lines : List String) (st : Nat × List Replacement)
    (chunk : UpdateFileChunk) (hne : chunk.oldLines ≠ [])
    (h : seekSequence lines (normPattern chunk)
      (cursorAfterHint lines st.1 chunk.changeContext) = none) :
    chunkStep lines st chunk =
      .err ("Failed to find expected lines:\n" ++ joinLines (normPattern chunk)) 400 := by
  simp only [chunkStep]
  rw [if_neg hne, h]

theorem chunkStep_some_eq (lines : List String) (st : Nat × List Replacement)
    (chunk : UpdateFileChunk) (m : Nat) (hne : chunk.oldLines ≠ [])
    (h : seekSequence lines (normPattern chunk)
      (cursorAfterHint lines st.1 chunk.changeContext) = some m) :
    chunkStep lines st chunk =
      .ok (m + (normPattern chunk).length,
        st.2 ++ [⟨m, (normPattern chunk).length, normNewLines chunk⟩]) := by
  simp only [chunkStep]
  rw [if_neg hne, h]

theorem chunkStep_mono (lines : List String) (st : Nat × List Replacement)
    (chunk : UpdateFileChunk) (st' : Nat × List Replacement)
    (h : chunkStep lines st chunk = .ok st') : st.1 ≤ st'.1 := by
  have hs := cursorAfterHint_ge lines st.1 chunk.changeContext
  simp only [chunkStep] at h
  by_cases hne : chunk.oldLines = []
  · rw [if_pos hne] at h
    injection h with h
    rw [← h]
    exact hs
  · rw [if_neg hne] at h
    cases hseek : seekSequence lines (normPattern chunk)
        (cursorAfterHint lines st.1 chunk.changeContext) with
    | none => rw [hseek] at h; cases h
    | some m =>
      rw [hseek] at h
      injection h with h
      rw [← h]
      have := seek_ge lines (normPattern chunk)
        (cursorAfterHint lines st.1 chunk.changeContext) m hseek
      simp only []
      omega

theorem chunksLoop_mono (lines : List String) (chunks : List UpdateFileChunk) :
    ∀ st st', chunksLoop lines st chunks = .ok st' → st.1 ≤ st'.1 := by
  induction chunks with
  | nil =>
    intro st st' h
    injection h with h
    rw [h]
  | cons c cs ih =>
    intro st st' h
    unfold chunksLoop at h
    cases hcs : chunkStep lines st c with
    | ok st1 =>
      rw [hcs] at h
      exact Nat.le_trans (chunkStep_mono lines st c st1 hcs) (ih st1 st' h)
    | err m s => rw [hcs] at h; cases h
    | diverges => rw [hcs] at h; cases h

/-! ## Claim C4 -/

/-- C4: for every update chunk with non-empty old lines, when the line
matcher finds no occurrence of the (normalized) pattern at or after the
current search cursor, the chunk step fails with exactly
`Failed to find expected lines:\n<pattern joined by newlines>`; and when
the pattern is found, no match error is raised — the step succeeds and
queues the replacement. -/
theorem chunk_match_error (lines : List String) (st : Nat × List Replacement)
    (chunk : UpdateFileChunk) (hne : chunk.oldLines ≠ []) :
    (seekSequence lines (normPattern chunk)
        (cursorAfterHint lines st.1 chunk.changeContext) = none →
      chunkStep lines st chunk =
        .err ("Failed to find expected lines:\n" ++ joinLines (normPattern chunk)) 400)
    ∧ (∀ m, seekSequence lines (normPattern chunk)
        (cursorAfterHint lines st.1 chunk.changeContext) = some m →
      chunkStep lines st chunk =
        .ok (m + (normPattern chunk).length,
          st.2 ++ [⟨m, (normPattern chunk).length, normNewLines chunk⟩])) :=
  ⟨fun h => chunkStep_none_eq lines st chunk hne h,
   fun m h => chunkStep_some_eq lines st chunk m hne h⟩

/-- Witness for C4 at concrete inputs: pattern `["p"]` is absent from
`["q"]` (match error with the exact message) and present in `["p"]`
(success, replacement queued). -/
theorem chunk_match_error_witness :
    chunkStep ["q"] (0, []) ⟨none, ["p"], ["r"], false⟩ =
      .err ("Failed to find expected lines:\n" ++
        joinLines (normPattern ⟨none, ["p"], ["r"], false⟩)) 400 ∧
    chunkStep ["p"] (0, []) ⟨none, ["p"], ["r"], false⟩ =
      .ok (0 + (normPattern ⟨none, ["p"], ["r"], false⟩).length,
        [] ++ [⟨0, (normPattern ⟨none, ["p"], ["r"], false⟩).length,
          normNewLines ⟨none, ["p"], ["r"], false⟩⟩]) :=
  ⟨(chunk_match_error ["q"] (0, []) ⟨none, ["p"], ["r"], false⟩ (by decide)).1 (by decide),
   (chunk_match_error ["p"] (0, []) ⟨none, ["p"], ["r"], false⟩ (by decide)).2 0 (by decide)⟩

/-! ## Claim C6 -/

/-- C6: within one update operation the search cursor never rewinds: a
context hint found at index `i` advances the cursor to `i + 1`; a
context-hint miss leaves the cursor unchanged (and raises no error — the
hint step is a total function); a matched old-line pattern advances the
cursor to immediately after the matched span; each chunk step and the
whole chunk loop are monotone in the cursor. -/
theorem cursor_monotone (lines : List String) :
    (∀ s c i, c ≠ "" → seekSequence lines [c] s = some i →
      cursorAfterHint lines s (some c) = i + 1)
    ∧ (∀ s c, seekSequence lines [c] s = none → cursorAfterHint lines s (some c) = s)
    ∧ (∀ st chunk st', chunkStep lines st chunk = .ok st' → st.1 ≤ st'.1)
    ∧ (∀ st chunk m, chunk.oldLines ≠ [] →
        seekSequence lines (normPattern chunk)
          (cursorAfterHint lines st.1 chunk.changeContext) = some m →
        chunkStep lines st chunk =
          .ok (m + (normPattern chunk).length,
            st.2 ++ [⟨m, (normPattern chunk).length, normNewLines chunk⟩]))
    ∧ (∀ chunks st st', chunksLoop lines st chunks = .ok st' → st.1 ≤ st'.1) := by
  refine ⟨?_, ?_, ?_, ?_, ?_⟩
  · intro s c i hc h
    show (if c = "" then s
      else match seekSequence lines [c] s with
        | some ci => ci + 1
        | none => s) = i + 1
    rw [if_neg hc, h]
  · intro s c h
    show (if c = "" then s
      else match seekSequence lines [c] s with
        | some ci => ci + 1
        | none => s) = s
    by_cases hc : c = ""
    · rw [if_pos hc]
    · rw [if_neg hc, h]
  · exact fun st chunk st' h => chunkStep_mono lines st chunk st' h
  · exact fun st chunk m hne h => chunkStep_some_eq lines st chunk m hne h
  · exact fun chunks st st' h => chunksLoop_mono lines chunks st st' h

/-- Witness for C6 at a concrete input: hint `"c"` is found at index 0 and
advances the cursor to 1; the chunk match at index 1 advances it to 2. -/
theorem cursor_monotone_witness :
    cursorAfterHint ["c", "p"] 0 (some "c") = 1 ∧
    chunkStep ["c", "p"] (0, []) ⟨some "c", ["p"], ["q"], false⟩ =
      .ok (2, [⟨1, 1, ["q"]⟩]) ∧
    (0 : Nat) ≤ 2 := by
  have h1 := (cursor_monotone ["c", "p"]).1 0 "c" 0 (by decide) (by decide)
  have h2 : chunkStep ["c", "p"] (0, []) ⟨some "c", ["p"], ["q"], false⟩ =
      .ok (2, [⟨1, 1, ["q"]⟩]) := by decide
  exact ⟨h1, h2, (cursor_monotone ["c", "p"]).2.2.1 (0, []) _ _ h2⟩

/-! ## Claim C2 -/

theorem splice_single (l : List String) (k : Nat) (v : String) (hk : k < l.length) :
    splice l ⟨k, 1, [v]⟩ = l.set k v := by
  unfold splice
  rw [List.append_assoc, List.singleton_append, ← List.set_eq_take_cons_drop v hk]

theorem sortReps_pair (r1 r2 : Replacement) :
    sortReps [r1, r2] = if r2.start ≤ r1.start then [r1, r2] else [r2, r1] := by
  simp only [sortReps, insertDesc]

/-- C2: for an update consisting of two single-line chunks whose patterns
are located at positions `i` and then `j` of the original buffer, the chunk
loop queues exactly the replacements `(i, 1, [x])` and `(j, 1, [y])`
(positions determined against the original, pre-edit content); the
descending sort puts the later span first; and applying the queued
replacements yields the buffer with position `i` set to `x` and position
`j` set to `y` — both edits land at their pre-edit positions. -/
theorem update_two_chunks (lines : List String) (a b x y : String) (i j : Nat)
    (ha : a ≠ "") (hb : b ≠ "")
    (h1 : seekSequence lines [a] 0 = some i)
    (h2 : seekSequence lines [b] (i + 1) = some j) :
    computeReplacements lines [⟨none, [a], [x], false⟩, ⟨none, [b], [y], false⟩] =
      .ok [⟨i, 1, [x]⟩, ⟨j, 1, [y]⟩] ∧
    sortReps [⟨i, 1, [x]⟩, ⟨j, 1, [y]⟩] = [⟨j, 1, [y]⟩, ⟨i, 1, [x]⟩] ∧
    applyReplacements lines [⟨i, 1, [x]⟩, ⟨j, 1, [y]⟩] = (lines.set i x).set j y ∧
    i < j := by
  have hij : i + 1 ≤ j := seek_ge lines [b] (i + 1) j h2
  have hjlen : j + 1 ≤ lines.length := by
    have := seek_bound lines [b] (i + 1) j (by simp) h2
    simpa using this
  have hnp1 : normPattern ⟨none, [a], [x], false⟩ = [a] := by
    simp [normPattern, ha]
  have hnn1 : normNewLines ⟨none, [a], [x], false⟩ = [x] := by
    simp [normNewLines, ha]
  have hnp2 : normPattern ⟨none, [b], [y], false⟩ = [b] := by
    simp [normPattern, hb]
  have hnn2 : normNewLines ⟨none, [b], [y], false⟩ = [y] := by
    simp [normNewLines, hb]
  have e1 : chunkStep lines (0, []) ⟨none, [a], [x], false⟩ = .ok (i + 1, [⟨i, 1, [x]⟩]) := by
    have hseek : seekSequence lines (normPattern ⟨none, [a], [x], false⟩)
        (cursorAfterHint lines (0, ([] : List Replacement)).1
          (UpdateFileChunk.changeContext ⟨none, [a], [x], false⟩)) = some i := by
      rw [hnp1]; exact h1
    have h := chunkStep_some_eq lines (0, []) ⟨none, [a], [x], false⟩ i (by simp) hseek
    rw [hnp1, hnn1] at h
    simpa using h
  have e2 : chunkStep lines (i + 1, [⟨i, 1, [x]⟩]) ⟨none, [b], [y], false⟩ =
      .ok (j + 1, [⟨i, 1, [x]⟩, ⟨j, 1, [y]⟩]) := by
    have hseek : seekSequence lines (normPattern ⟨none, [b], [y], false⟩)
        (cursorAfterHint lines (i + 1, [(⟨i, 1, [x]⟩ : Replacement)]).1
          (UpdateFileChunk.changeContext ⟨none, [b], [y], false⟩)) = some j := by
      rw [hnp2]; exact h2
    have h := chunkStep_some_eq lines (i + 1, [⟨i, 1, [x]⟩]) ⟨none, [b], [y], false⟩ j
      (by simp) hseek
    rw [hnp2, hnn2] at h
    simpa using h
  refine ⟨?_, ?_, ?_, by omega⟩
  · simp only [computeReplacements, chunksLoop, e1, e2, PRes.map]
  · rw [sortReps_pair]
    have : ¬ ((⟨j, 1, [y]⟩ : Replacement).start ≤ (⟨i, 1, [x]⟩ : Replacement).start) := by
      simp only []
      omega
    rw [if_neg this]
  · unfold applyReplacements
    rw [sortReps_pair]
    have hc : ¬ ((⟨j, 1, [y]⟩ : Replacement).start ≤ (⟨i, 1, [x]⟩ : Replacement).start) := by
      simp only []
      omega
    rw [if_neg hc]
    show splice (splice lines ⟨j, 1, [y]⟩) ⟨i, 1, [x]⟩ = (lines.set i x).set j y
    rw [splice_single lines j y (by omega)]
    rw [splice_single (lines.set j y) i x (by simp; omega)]
    exact List.set_comm y x lines (by omega : j ≠ i)

/-- Witness for C2 at a concrete input: in `["p", "q"]`, pattern `["p"]`
matches at 0 and `["q"]` at 1; both single-line edits land at their
original positions. -/
theorem update_two_chunks_witness :
    computeReplacements ["p", "q"] [⟨none, ["p"], ["X"], false⟩, ⟨none, ["q"], ["Y"], false⟩] =
      .ok [⟨0, 1, ["X"]⟩, ⟨1, 1, ["Y"]⟩] ∧
    sortReps [⟨0, 1, ["X"]⟩, ⟨1, 1, ["Y"]⟩] = [⟨1, 1, ["Y"]⟩, ⟨0, 1, ["X"]⟩] ∧
    applyReplacements ["p", "q"] [⟨0, 1, ["X"]⟩, ⟨1, 1, ["Y"]⟩] =
      (["p", "q"].set 0 "X").set 1 "Y" ∧
    0 < 1 :=
  update_two_chunks ["p", "q"] "p" "q" "X" "Y" 0 1 (by decide) (by decide)
    (by decide) (by decide)

/-! ## Claim C5 -/

/-- C5 counterexample: the chunk replaces `"a"` by `"b"` (old ≠ new), yet
applying it twice to `"a\na\n"` succeeds both times — after the first
application the pattern still occurs later in the file, so the second
application does not fail as the claim requires. -/
theorem apply_twice_counterexample :
    (⟨none, ["a"], ["b"], false⟩ : UpdateFileChunk).oldLines ≠
      (⟨none, ["a"], ["b"], false⟩ : UpdateFileChunk).newLines ∧
    applyUpdateChunksPure "a\na\n" [⟨none, ["a"], ["b"], false⟩] = .ok "b\na\n" ∧
    applyUpdateChunksPure "b\na\n" [⟨none, ["a"], ["b"], false⟩] = .ok "b\nb\n" ∧
    ∀ m s, applyUpdateChunksPure "b\na\n" [⟨none, ["a"], ["b"], false⟩] ≠ .err m s := by
  have he : applyUpdateChunksPure "b\na\n" [⟨none, ["a"], ["b"], false⟩] = .ok "b\nb\n" := by
    decide
  refine ⟨by decide, by decide, he, ?_⟩
  intro m s h
  rw [he] at h
  cases h

/-- C5 amended: for a single-chunk update, if the first application
succeeds and the (normalized) old-line pattern no longer matches anywhere
in the resulting content from the post-hint cursor onward, then applying
the same patch to the result fails with the match error. -/
theorem apply_twice_amended (content out : String) (chunk : UpdateFileChunk)
    (h1 : applyUpdateChunksPure content [chunk] = .ok out)
    (hne : chunk.oldLines ≠ [])
    (h2 : seekSequence (initialLines out) (normPattern chunk)
        (cursorAfterHint (initialLines out) 0 chunk.changeContext) = none) :
    applyUpdateChunksPure out [chunk] =
      .err ("Failed to find expected lines:\n" ++ joinLines (normPattern chunk)) 400 := by
  have hstep := chunkStep_none_eq (initialLines out) (0, []) chunk hne h2
  simp only [applyUpdateChunksPure, computeReplacements, chunksLoop, hstep, PRes.map]

/-- Witness for the amended C5: replacing `"bar"` by `"baz"` in
`"foo\nbar\n"` succeeds, and applying the same patch to the result fails
with the match error. -/
theorem apply_twice_amended_witness :
    applyUpdateChunksPure "foo\nbar\n" [⟨none, ["bar"], ["baz"], false⟩] = .ok "foo\nbaz\n" ∧
    applyUpdateChunksPure "foo\nbaz\n" [⟨none, ["bar"], ["baz"], false⟩] =
      .err ("Failed to find expected lines:\n" ++
        joinLines (normPattern ⟨none, ["bar"], ["baz"], false⟩)) 400 :=
  ⟨by decide,
   apply_twice_amended "foo\nbar\n" "foo\nbaz\n" ⟨none, ["bar"], ["baz"], false⟩
     (by decide) (by decide) (by decide)⟩

/-! ## Claim C3 -/

/-- The output ends with exactly one `'\n'`: last character is a newline
and the character before it (if any) is not. -/
def EndsWithOneNewline (s : String) : Prop :=
  s.data.getLast? = some '\n' ∧ s.data.dropLast.getLast? ≠ some '\n'

theorem joinLines_concat_empty (b : List String) (hb : b ≠ []) :
    joinLines (b ++ [""]) = joinLines b ++ "\n" := by
  induction b with
  | nil => exact absurd rfl hb
  | cons x b' ih =>
    cases b' with
    | nil => exact (String.append_empty (x ++ "\n")).symm ▸ rfl
    | cons y b'' =>
      show x ++ "\n" ++ joinLines ((y :: b'') ++ [""]) = x ++ "\n" ++ joinLines (y :: b'') ++ "\n"
      rw [ih (by simp)]
      simp [String.append_assoc]

theorem joinLines_data_getLast (b : List String) (t : String)
    (hb : b.getLast? = some t) (ht : t ≠ "") :
    (joinLines b).data.getLast? = t.data.getLast? := by
  induction b with
  | nil => cases hb
  | cons x b' ih =>
    cases b' with
    | nil =>
      have hx : x = t := by simpa using hb
      rw [hx]
      rfl
    | cons y b'' =>
      rw [List.getLast?_cons_cons] at hb
      have ihh := ih hb
      show ((x ++ "\n") ++ joinLines (y :: b'')).data.getLast? = t.data.getLast?
      rw [String.data_append, List.getLast?_append, ihh]
      have htd : t.data ≠ [] := by
        intro hh
        exact ht (String.ext hh)
      cases hlast : t.data.getLast? with
      | none => exact absurd (List.getLast?_eq_none_iff.mp hlast) htd
      | some c => rfl

/-- C3 counterexample: a chunk that deletes the only line of `"a\n"`
succeeds with output `""`, which does not end with a trailing newline at
all — refuting "the output text never ends without a newline". -/
theorem trailing_newline_counterexample :
    applyUpdateChunksPure "a\n" [⟨none, ["a"], [], false⟩] = .ok "" ∧
    ¬ EndsWithOneNewline "" := by
  refine ⟨by decide, ?_⟩
  intro h
  exact absurd h.1 (by decide)

/-- C3 amended: the serializer appends a single empty element exactly when
the post-replacement buffer is non-empty and its last element is
non-empty; in that case (lines being newline-free, as all parsed lines
are) the output ends with exactly one trailing newline.  (When the buffer
is empty the output is empty, and when the buffer already ends with empty
elements the output keeps its multiple trailing newlines.) -/
theorem trailing_newline_amended (content : String) (chunks : List UpdateFileChunk)
    (reps : List Replacement) (b : List String)
    (hr : computeReplacements (initialLines content) chunks = .ok reps)
    (hb : applyReplacements (initialLines content) reps = b)
    (hbne : b ≠ [])
    (hlast : b.getLast? ≠ some "")
    (hnl : ∀ l ∈ b, ('\n' : Char) ∉ l.data) :
    applyUpdateChunksPure content chunks = .ok (joinLines (b ++ [""])) ∧
    EndsWithOneNewline (joinLines (b ++ [""])) := by
  have hens : ensureTrailingNewline b = b ++ [""] := by
    unfold ensureTrailingNewline
    rw [if_pos ⟨hbne, hlast⟩]
  constructor
  · simp only [applyUpdateChunksPure, hr, hb, hens, PRes.map]
  · obtain ⟨t, hT⟩ : ∃ t, b.getLast? = some t := by
      cases hgl : b.getLast? with
      | none => exact absurd (List.getLast?_eq_none_iff.mp hgl) hbne
      | some t => exact ⟨t, rfl⟩
    have htne : t ≠ "" := fun hh => hlast (by rw [hT, hh])
    rw [joinLines_concat_empty b hbne]
    constructor
    · rw [String.data_append, List.getLast?_append]
      rfl
    · rw [String.data_append]
      have hdl : ((joinLines b).data ++ "\n".data).dropLast = (joinLines b).data :=
        List.dropLast_concat
      rw [hdl, joinLines_data_getLast b t hT htne]
      intro hc
      exact hnl t (List.mem_of_mem_getLast? hT) (List.mem_of_mem_getLast? hc)

/-- Witness for the amended C3: replacing `"a"` by `"c"` in `"a\nb\n"`
gives buffer `["c", "b"]` and output `"c\nb\n"`, which ends with exactly
one newline. -/
theorem trailing_newline_amended_witness :
    applyUpdateChunksPure "a\nb\n" [⟨none, ["a"], ["c"], false⟩] =
      .ok (joinLines (["c", "b"] ++ [""])) ∧
    EndsWithOneNewline (joinLines (["c", "b"] ++ [""])) :=
  trailing_newline_amended "a\nb\n" [⟨none, ["a"], ["c"], false⟩] [⟨0, 1, ["c"]⟩]
    ["c", "b"] (by decide) (by decide) (by decide) (by decide) (by decide)

end ApplyPatch
